import Mathlib

/-
Verification of the parameter-search and equivalence-verification engine of
rename_camera.py (nebula-cam-renamer).

Shallow embedding conventions:
  * Python strings are modelled as lists of characters (type Str below).
  * File contents are lists of bytes (List Nat); the filesystem, the external
    dump tool and the external builder are modelled as explicit environment
    parameters (functions supplied to each operation), since the Python code
    reaches them only through subprocess calls and file reads.
  * A value that Python tests for truthiness (None / empty string) is modelled
    as an Option together with an explicit emptiness test.
  * float('inf') scores are modelled as the top element of the extended
    naturals.
-/

/-- A Python string: a sequence of characters. -/
abbrev Str : Type := List Char

/-- Convert a Lean string literal to the character-list model. -/
def S (s : String) : Str := s.toList

/- ----------------------------------------------------------------------
   4.2 Binary Diff Scorer: compare_binaries_32bit (rename_camera.py 135-164)
   ---------------------------------------------------------------------- -/

/-- The chunk-walking loop of compare_binaries_32bit (lines 142-160): read both
files in lockstep 4-byte chunks; on a chunk-length mismatch add one per
non-empty chunk and stop; on two empty chunks stop; otherwise add one when the
equal-length chunks differ and continue. -/
def diffCount32 (b1 b2 : List Nat) : Nat :=
  let chunk1 := b1.take 4
  let chunk2 := b2.take 4
  if chunk1.length ≠ chunk2.length then
    (if chunk1 ≠ [] then 1 else 0) + (if chunk2 ≠ [] then 1 else 0)
  else
    match b1 with
    | [] => 0
    | a :: r => (if chunk1 ≠ chunk2 then 1 else 0) + diffCount32 ((a :: r).drop 4) (b2.drop 4)
termination_by b1.length
decreasing_by
  simp only [List.length_drop, List.length_cons]
  omega

/-- compare_binaries_32bit (lines 135-164): opening a missing file raises
FileNotFoundError, caught and turned into float('inf'); otherwise the loop
above counts differences.  The filesystem is the explicit parameter fs. -/
def compare_binaries_32bit (fs : Str → Option (List Nat)) (file1 file2 : Str) : ℕ∞ :=
  match fs file1, fs file2 with
  | some b1, some b2 => (diffCount32 b1 b2 : ℕ∞)
  | _, _ => ⊤

/-- Split a byte list into consecutive 4-byte chunks (the last one possibly
shorter).  Used only to state the claim-side reference count for C4. -/
def chunks4 (l : List Nat) : List (List Nat) :=
  match l with
  | [] => []
  | a :: r => ((a :: r).take 4) :: chunks4 ((a :: r).drop 4)
termination_by l.length
decreasing_by
  simp only [List.length_drop, List.length_cons]
  omega

/-- Reference count, written from the claim (C4) text: walk aligned chunk
pairs; an equal-length unequal pair adds 1, an equal pair adds 0; at the first
length mismatch each side's non-empty final chunk adds 1 and the walk stops
(a side that is already exhausted contributes an empty final chunk). -/
def refCount : List (List Nat) → List (List Nat) → Nat
  | [], [] => 0
  | [], c2 :: _ => if c2 ≠ [] then 1 else 0
  | c1 :: _, [] => if c1 ≠ [] then 1 else 0
  | c1 :: r1, c2 :: r2 =>
    if c1.length = c2.length then (if c1 ≠ c2 then 1 else 0) + refCount r1 r2
    else (if c1 ≠ [] then 1 else 0) + (if c2 ≠ [] then 1 else 0)

/- ----------------------------------------------------------------------
   Python whitespace splitting and joining (str.split / " ".join), needed to
   model build_jffs2_from_params (lines 13-36) and the search loop's
   parameter-string assembly (lines 461-494).
   ---------------------------------------------------------------------- -/

/-- The characters Python str.split() treats as whitespace. -/
def pyIsSpace (c : Char) : Bool :=
  c = ' ' || c = '\t' || c = '\n' || c = '\r' || c = Char.ofNat 11 || c = Char.ofNat 12

/-- Worker for pySplit: cur holds the (reversed) token being read. -/
def pySplitAux (cur : Str) : Str → List Str
  | [] => if cur = [] then [] else [cur.reverse]
  | c :: s =>
    if pyIsSpace c then
      if cur = [] then pySplitAux [] s else cur.reverse :: pySplitAux [] s
    else pySplitAux (c :: cur) s

/-- Python str.split() with no arguments: split on runs of whitespace,
discarding empty tokens. -/
def pySplit (s : Str) : List Str := pySplitAux [] s

/-- Python " ".join(xs): the fragments in order with one space between
consecutive fragments. -/
def pyJoin : List Str → Str
  | [] => []
  | [x] => x
  | x :: y :: rest => x ++ ' ' :: pyJoin (y :: rest)

/- ----------------------------------------------------------------------
   4.5 Candidate Builder: the two rendering paths
   build_jffs2_from_params (lines 13-36) and build_jffs2 (lines 38-100).
   Only the argument list handed to the external tool is modelled; the
   subprocess result is environment-determined and irrelevant to C5.
   ---------------------------------------------------------------------- -/

/-- Argument list of the pre-assembled-option-string path
build_jffs2_from_params (lines 18-25): base arguments plus
params_string.split(). -/
def build_jffs2_from_params_cmd (source_dir output_file params_string : Str) : List Str :=
  [S "wsl", S "mkfs.jffs2", S "-r", source_dir, S "-o", output_file] ++ pySplit params_string

/-- Render an optional value as a two-token flag-value pair, omitted when the
value is None or empty (Python truthiness). -/
def optPairArg (flag : Str) (o : Option Str) : List Str :=
  match o with
  | some v => if v ≠ [] then [flag, v] else []
  | none => []

/-- Argument list of the discrete-named-parameter path build_jffs2
(lines 43-89).  ex models os.path.exists.  disable_compressor and
enable_compressor are accepted by the source function but never rendered. -/
def build_jffs2_cmd (ex : Str → Bool) (source_dir output_file erase_size page_size : Str)
    (pad_size compression : Option Str) (endianness : Str)
    (no_cleanmarkers : Bool) (cleanmarker_size : Option Str) (faketime : Bool)
    (squash_perms squash_uids squash_all : Bool) (compr_mode : Option Str)
    (with_xattr with_selinux with_posix_acl : Bool)
    (devtable disable_compressor enable_compressor : Option Str) : List Str :=
  [S "wsl", S "mkfs.jffs2", S "-r", source_dir, S "-o", output_file,
   S "-e", erase_size, S "-s", page_size]
  ++ optPairArg (S "-q") compression
  ++ optPairArg (S "-p") pad_size
  ++ (if endianness ≠ [] then [endianness] else [])
  ++ (if no_cleanmarkers then [S "-n"] else [])
  ++ optPairArg (S "-c") cleanmarker_size
  ++ (if faketime then [S "-f"] else [])
  ++ (if squash_all then [S "-q"]
      else if squash_uids then [S "-U"]
      else if squash_perms then [S "-P"] else [])
  ++ optPairArg (S "-m") compr_mode
  ++ (if with_xattr then [S "--with-xattr"] else [])
  ++ (if with_selinux then [S "--with-selinux"] else [])
  ++ (if with_posix_acl then [S "--with-posix-acl"] else [])
  ++ (match devtable with
      | some v => if v ≠ [] ∧ ex v then [S "-D", v] else []
      | none => [])

/-- A one-token fragment of the form flag-value joined by a space,
as written by the search loop (e.g. the argument of "-c"). -/
def optSpaceFrag (flag : Str) (o : Option Str) : List Str :=
  match o with
  | some v => if v ≠ [] then [flag ++ (' ' :: v)] else []
  | none => []

/-- A one-token fragment of the form prefix-then-value (e.g. the argument of
the long pad option), as written by the search loop. -/
def optEqFrag (pre : Str) (o : Option Str) : List Str :=
  match o with
  | some v => if v ≠ [] then [pre ++ v] else []
  | none => []

/-- The squash fragment of the search loop (lines 474-479). -/
def squashFrag (o : Option Str) : List Str :=
  if o = some (S "all") then [S "-q"]
  else if o = some (S "uids") then [S "-U"]
  else if o = some (S "perms") then [S "-P"]
  else []

/-- The devtable fragment of the search loop (lines 488-489). -/
def devFrag (ex : Str → Bool) (o : Option Str) : List Str :=
  match o with
  | some v => if v ≠ [] ∧ ex v then [S "-D" ++ (' ' :: v)] else []
  | none => []

/-- One logical parameter tuple of the search loop (the sixteen loop
variables of lines 443-458). -/
structure Params where
  erase_size : Str
  page_size : Str
  pad_size : Option Str
  compression : Option Str
  endianness : Str
  no_cleanmarkers : Bool
  cleanmarker_size : Option Str
  faketime : Bool
  squash : Option Str
  compr_mode : Option Str
  with_xattr : Bool
  with_selinux : Bool
  with_posix_acl : Bool
  devtable : Option Str
  disabled_compressor : Option Str
  enable_compressor : Option Str
  deriving DecidableEq

/-- Parameter-description fragments assembled by the search loop
(lines 462-493), in source order. -/
def scanParamsList (ex : Str → Bool) (p : Params) : List Str :=
  [S "-e" ++ (' ' :: p.erase_size), S "-s" ++ (' ' :: p.page_size)]
  ++ optEqFrag (S "--pad=") p.pad_size
  ++ optSpaceFrag (S "-q") p.compression
  ++ [p.endianness]
  ++ (if p.no_cleanmarkers then [S "-n"] else [])
  ++ optSpaceFrag (S "-c") p.cleanmarker_size
  ++ (if p.faketime then [S "-f"] else [])
  ++ squashFrag p.squash
  ++ optEqFrag (S "--compression-mode=") p.compr_mode
  ++ (if p.with_xattr then [S "--with-xattr"] else [])
  ++ (if p.with_selinux then [S "--with-selinux"] else [])
  ++ (if p.with_posix_acl then [S "--with-posix-acl"] else [])
  ++ devFrag ex p.devtable
  ++ optEqFrag (S "--disable-compressor=") p.disabled_compressor
  ++ optEqFrag (S "--enable-compressor=") p.enable_compressor

/-- The parameter string the loop hands to build_jffs2_from_params
(line 494). -/
def scanParamStr (ex : Str → Bool) (p : Params) : Str :=
  pyJoin (scanParamsList ex p)

/-- Canonicalize one token: the long spellings of the pad and
compression-mode options are aliases of their short spellings in the external
tool's option grammar; everything else is kept as-is. -/
def canonTok (t : Str) : List Str :=
  if (S "--pad=").isPrefixOf t then [S "-p", t.drop 6]
  else if (S "--compression-mode=").isPrefixOf t then [S "-m", t.drop 19]
  else [t]

/-- Canonicalize an argument list token by token. -/
def canonToks (l : List Str) : List Str := l.flatMap canonTok

/-- Two invocations of the external image builder are equivalent when their
canonicalized argument multisets agree (the tool accepts its options in any
order, and long and short spellings alike). -/
def invocEquiv (c1 c2 : List Str) : Prop := (canonToks c1).Perm (canonToks c2)

/- ----------------------------------------------------------------------
   4.3 Structural Dump Comparator: get_jffs2_dump (lines 113-124) and
   compare_jffs2_dumps (lines 126-133).  The external dump tool is the
   environment dumpEnv: for a file path it gives either none (the tool is
   absent, FileNotFoundError) or a pair of exit code and captured stdout.
   ---------------------------------------------------------------------- -/

/-- Python str.split with a newline separator: cut at every newline,
keeping empty pieces (an empty string yields one empty piece). -/
def splitNl : Str → List Str
  | [] => [[]]
  | c :: s =>
    if c = '\n' then [] :: splitNl s
    else
      match splitNl s with
      | [] => [[c]]
      | t :: r => (c :: t) :: r

/-- get_jffs2_dump (lines 113-124): on exit code 0, the first 20 lines of
stdout joined by newlines; on non-zero exit or absent tool, None. -/
def get_jffs2_dump (dumpEnv : Str → Option (Nat × Str)) (filepath : Str) : Option Str :=
  match dumpEnv filepath with
  | none => none
  | some r => if r.1 = 0 then some (List.intercalate ['\n'] ((splitNl r.2).take 20)) else none

/-- compare_jffs2_dumps (lines 126-133): Python tests the two dumps for
truthiness (None and the empty string are falsy) and only then compares. -/
def compare_jffs2_dumps (dumpEnv : Str → Option (Nat × Str)) (file1 file2 : Str) : Bool :=
  match get_jffs2_dump dumpEnv file1, get_jffs2_dump dumpEnv file2 with
  | some dump1, some dump2 =>
    if dump1 ≠ [] ∧ dump2 ≠ [] then decide (dump1 = dump2) else false
  | _, _ => false

/- ----------------------------------------------------------------------
   4.4 Content Extraction Comparator: compare_jffs2 (lines 350-391).
   Temporary directories are modelled as numeric ids; the ambient pool of
   existing temporary directories is passed and returned explicitly.  The two
   extraction subprocess.run calls use check=True, so a failure raises; the
   dircmp result is abstracted by diffsEmpty.  try/finally semantics: the
   finally block removes both directories on every exit path.
   ---------------------------------------------------------------------- -/

/-- A tempfile.mkdtemp fresh directory id: strictly larger than every
existing id. -/
def freshDir (dirs : List Nat) : Nat := (dirs.foldr max 0) + 1

/-- compare_jffs2 (lines 350-391).  raise1 and raise2 say whether the two
extraction-tool invocations raise; diffsEmpty is the recursive tree-diff
verdict.  Result: the Python return value (or the propagated exception), and
the pool of temporary directories left behind. -/
def compare_jffs2 (dirs0 : List Nat) (raise1 raise2 diffsEmpty : Bool) :
    Except Unit Bool × List Nat :=
  let tmpdir1 := freshDir dirs0
  let dirs1 := dirs0 ++ [tmpdir1]
  let tmpdir2 := freshDir dirs1
  let dirs2 := dirs1 ++ [tmpdir2]
  let body : Except Unit Bool :=
    if raise1 then Except.error ()
    else if raise2 then Except.error ()
    else Except.ok diffsEmpty
  let dirsAfter := (dirs2.filter (fun d => d ≠ tmpdir1)).filter (fun d => d ≠ tmpdir2)
  (body, dirsAfter)

/- ----------------------------------------------------------------------
   4.6 Timestamp Normalizer: set_timestamps_recursively (lines 319-342).
   The source tree is modelled flat, as the list of its entries; an entry's
   path is the list of name segments relative to the walked root, so the root
   directory itself is the entry with the empty path.  os.walk visits every
   directory and the loop utimes the files and subdirectories listed at each
   visit; exactly the entries with a non-empty relative path are touched.
   ---------------------------------------------------------------------- -/

/-- One filesystem object inside the walked tree. -/
structure FsEntry where
  path : List Str
  isDir : Bool
  mtime : Nat
  atime : Nat
  deriving DecidableEq

/-- set_timestamps_recursively (lines 319-342): os.utime(p, (t, t)) on every
file and directory yielded by os.walk, i.e. every entry other than the walked
root itself. -/
def set_timestamps_recursively (tree : List FsEntry) (unix_time : Nat) : List FsEntry :=
  tree.map fun e =>
    if e.path = [] then e else { e with mtime := unix_time, atime := unix_time }

/- ----------------------------------------------------------------------
   4.7 Search Engine: scan_for_correct_build_args (lines 394-576).
   External effects are the environment env: for each parameter tuple it
   yields the outcome of building and scoring that candidate (build success,
   hash of the produced file, dump comparison verdict, 32-bit diff score).
   ---------------------------------------------------------------------- -/

/-- What the environment determines for one candidate build (lines 502-507):
whether build_jffs2_from_params succeeded, the produced file's hash
(None when get_file_hash hits FileNotFoundError), the verdict of
compare_jffs2_dumps, and the compare_binaries_32bit score. -/
structure Outcome where
  success : Bool
  hash : Option Str
  dumpsMatch : Bool
  score : ℕ∞

/-- The dict the search returns (lines 550-565 and 517-532): the fourteen
recorded keys.  disabled_compressor and enable_compressor are looped over but
not part of the returned dict. -/
structure Combo where
  erase_size : Str
  page_size : Str
  pad_size : Option Str
  compression : Option Str
  endianness : Str
  no_cleanmarkers : Bool
  cleanmarker_size : Option Str
  faketime : Bool
  squash : Option Str
  compr_mode : Option Str
  with_xattr : Bool
  with_selinux : Bool
  with_posix_acl : Bool
  devtable : Option Str
  deriving DecidableEq

/-- Project a parameter tuple to the dict the search returns. -/
def toCombo (p : Params) : Combo :=
  ⟨p.erase_size, p.page_size, p.pad_size, p.compression, p.endianness,
   p.no_cleanmarkers, p.cleanmarker_size, p.faketime, p.squash, p.compr_mode,
   p.with_xattr, p.with_selinux, p.with_posix_acl, p.devtable⟩

/-- Closest-match tracker (lines 439-441): closest_differences starts at
float('inf'); closest_params / closest_combination start at None and are
always set together. -/
structure SearchState where
  closest : ℕ∞
  closestTuple : Option Params
  deriving DecidableEq

/-- Externally visible actions of one search run, in order.  tsNormalize is
the one call to set_timestamps_recursively (line 399); build is one
build_jffs2_from_params call (line 502); printDumpsMatch / printDumpsNoMatch
are the prints at lines 510 and 512; first20Match is the print at line 536;
fileListings, analyzeFs and extractAndCompare are the three close-match
diagnostics (lines 543-545); compareJffs2Call stands for actually invoking
the extraction tree-diff comparator compare_jffs2. -/
inductive Ev where
  | tsNormalize
  | build (p : Params)
  | printDumpsMatch
  | printDumpsNoMatch
  | first20Match
  | fileListings
  | analyzeFs
  | extractAndCompare
  | compareJffs2Call
  deriving DecidableEq

/-- Result of one loop-body iteration. -/
structure StepOut where
  state : SearchState
  events : List Ev
  ret : Option Combo

/-- One iteration of the search loop body (lines 459-565) for the tuple p.
Note line 508: dumps_match_v2 is bound to the function object compare_jffs2
without calling it; a function object is truthy, so the line-510 branch is
taken unconditionally and the comparator itself never runs. -/
def stepBody (env : Params → Outcome) (h : Str) (p : Params) (st : SearchState) : StepOut :=
  let o := env p
  if o.success then
    let st' := if o.score < st.closest then ⟨o.score, some p⟩ else st
    let evs := [Ev.build p, Ev.printDumpsMatch]
      ++ (if o.dumpsMatch then [Ev.first20Match] else [])
      ++ (if o.score < 2000 then [Ev.fileListings, Ev.analyzeFs, Ev.extractAndCompare] else [])
    let ret : Option Combo :=
      match o.hash with
      | some th => if th ≠ [] ∧ th = h then some (toCombo p) else none
      | none => none
    ⟨st', evs, ret⟩
  else ⟨st, [Ev.build p], none⟩

/-- The state transition of one iteration. -/
def stepState (env : Params → Outcome) (h : Str) (st : SearchState) (p : Params) : SearchState :=
  (stepBody env h p st).state

/-- Run the loop over the remaining tuples: stop and return on the first
exact hash match (line 550), otherwise carry the closest-match state through.
Also accumulates the event trace. -/
def scanGo (env : Params → Outcome) (h : Str) :
    SearchState → List Params → Option Combo × SearchState × List Ev
  | st, [] => (none, st, [])
  | st, p :: rest =>
    let o := stepBody env h p st
    match o.ret with
    | some c => (some c, o.state, o.events)
    | none =>
      let r := scanGo env h o.state rest
      (r.1, r.2.1, o.events ++ r.2.2)

/-- The sixteen candidate-value lists of the search space (lines 403-421),
in loop-nesting order (lines 443-458). -/
structure SearchSpace where
  erase_sizes : List Str
  page_sizes : List Str
  pad_sizes : List (Option Str)
  compressions : List (Option Str)
  endianness_options : List Str
  cleanmarker_options : List Bool
  cleanmarker_sizes : List (Option Str)
  faketime_options : List Bool
  squash_options : List (Option Str)
  compr_modes : List (Option Str)
  xattr_options : List Bool
  selinux_options : List Bool
  posix_acl_options : List Bool
  device_table : List (Option Str)
  disable_compressors : List (Option Str)
  enable_compressors : List (Option Str)

/-- The Cartesian product of the search space in the exact nesting order of
the sixteen for-loops (lines 443-458): outermost erase_sizes, innermost
enable_compressors. -/
def allTuples (sp : SearchSpace) : List Params :=
  sp.erase_sizes.flatMap fun erase_size =>
  sp.page_sizes.flatMap fun page_size =>
  sp.pad_sizes.flatMap fun pad_size =>
  sp.compressions.flatMap fun compression =>
  sp.endianness_options.flatMap fun endianness =>
  sp.cleanmarker_options.flatMap fun no_cleanmarkers =>
  sp.cleanmarker_sizes.flatMap fun cleanmarker_size =>
  sp.faketime_options.flatMap fun faketime =>
  sp.squash_options.flatMap fun squash =>
  sp.compr_modes.flatMap fun compr_mode =>
  sp.xattr_options.flatMap fun with_xattr =>
  sp.selinux_options.flatMap fun with_selinux =>
  sp.posix_acl_options.flatMap fun with_posix_acl =>
  sp.device_table.flatMap fun devtable =>
  sp.disable_compressors.flatMap fun disabled_compressor =>
  sp.enable_compressors.map fun enable_compressor =>
  Params.mk erase_size page_size pad_size compression endianness no_cleanmarkers
    cleanmarker_size faketime squash compr_mode with_xattr with_selinux
    with_posix_acl devtable disabled_compressor enable_compressor

/-- What one whole search run produces: the Python return value, the event
trace, and the source tree as left behind. -/
structure ScanOut where
  result : Option Combo
  trace : List Ev
  tree : List FsEntry
  deriving DecidableEq

/-- The search engine over an arbitrary search space (the body of
scan_for_correct_build_args, lines 394-576): normalize timestamps once
(line 399, constant 1704288652), abort when the reference hash is falsy
(lines 423-426), then iterate; on exhaustion return the closest combination
when one exists (lines 567-576). -/
def scanLoop (env : Params → Outcome) (origHash : Option Str) (sp : SearchSpace)
    (tree : List FsEntry) : ScanOut :=
  let tree2 := set_timestamps_recursively tree 1704288652
  match origHash with
  | none => ⟨none, [Ev.tsNormalize], tree2⟩
  | some h =>
    if h = [] then ⟨none, [Ev.tsNormalize], tree2⟩
    else
      let r := scanGo env h ⟨⊤, none⟩ (allTuples sp)
      match r.1 with
      | some c => ⟨some c, Ev.tsNormalize :: r.2.2, tree2⟩
      | none => ⟨Option.map toCombo r.2.1.closestTuple, Ev.tsNormalize :: r.2.2, tree2⟩

/-- The concrete search space hard-coded in the source (lines 403-421). -/
def sourceSearchSpace : SearchSpace :=
  ⟨[S "0x8000"], [S "0x1000"], [some (S "0x100000")], [none], [S "-l"], [true],
   [none], [false], [some (S "all")], [none], [false], [false], [false],
   [none], [none], [none]⟩

/-- scan_for_correct_build_args (lines 394-576) as shipped: the engine run on
the hard-coded search space.  origHash abstracts get_file_hash(original_file)
and env the per-candidate build and scoring effects. -/
def scan_for_correct_build_args (env : Params → Outcome) (origHash : Option Str)
    (tree : List FsEntry) : ScanOut :=
  scanLoop env origHash sourceSearchSpace tree

/-- The build attempts recorded in a trace, in order. -/
def buildsIn (evs : List Ev) : List Params :=
  evs.filterMap fun e =>
    match e with
    | Ev.build p => some p
    | _ => none

/-- A value string that round-trips through both rendering paths unchanged:
non-empty, free of Python whitespace, and not starting with either long
option spelling that canonicalization rewrites. -/
def cleanVal (v : Str) : Prop :=
  v ≠ [] ∧ (∀ c ∈ v, pyIsSpace c = false)
  ∧ (S "--pad=").isPrefixOf v = false
  ∧ (S "--compression-mode=").isPrefixOf v = false

instance (v : Str) : Decidable (cleanVal v) := by
  unfold cleanVal
  infer_instance

/-- Every present value of the option is empty (rendered by neither path) or
clean. -/
def optClean (o : Option Str) : Prop := ∀ v, o = some v → v = [] ∨ cleanVal v

instance (o : Option Str) : Decidable (optClean o) := by
  unfold optClean
  cases o with
  | none => exact isTrue (by intro v hv; cases hv)
  | some v =>
    by_cases h : v = [] ∨ cleanVal v
    · exact isTrue (by intro w hw; cases hw; exact h)
    · exact isFalse (fun hall => h (hall v rfl))

/-- The devtable segment: rendered only when the value is truthy and the
file exists. -/
def devSeg (ex : Str → Bool) (o : Option Str) : List Str :=
  match o with
  | some v => if v ≠ [] ∧ ex v then [S "-D", v] else []
  | none => []

/-- The option segments shared, after canonicalization, by both rendering
paths from the endianness flag onward. -/
def restSegs (ex : Str → Bool) (p : Params) : List Str :=
  (if p.endianness ≠ [] then [p.endianness] else [])
  ++ (if p.no_cleanmarkers then [S "-n"] else [])
  ++ optPairArg (S "-c") p.cleanmarker_size
  ++ (if p.faketime then [S "-f"] else [])
  ++ squashFrag p.squash
  ++ optPairArg (S "-m") p.compr_mode
  ++ (if p.with_xattr then [S "--with-xattr"] else [])
  ++ (if p.with_selinux then [S "--with-selinux"] else [])
  ++ (if p.with_posix_acl then [S "--with-posix-acl"] else [])
  ++ devSeg ex p.devtable

/- ----------------------------------------------------------------------
   Concrete inputs used by witnesses and counterexamples.
   ---------------------------------------------------------------------- -/

/-- A filesystem with three small files, used to witness C4. -/
def fsW : Str → Option (List Nat) := fun p =>
  if p = S "a" then some [1, 2, 3, 4]
  else if p = S "c" then some [1, 2, 9, 9]
  else some [1, 2, 3, 4, 7]

/-- A filesystem on which every path is missing. -/
def fsNoneW : Str → Option (List Nat) := fun _ => none

/-- A filesystem on which every path holds an empty file. -/
def fsSomeW : Str → Option (List Nat) := fun _ => some []

/-- The single parameter tuple enumerated by the hard-coded search space. -/
def pW : Params :=
  ⟨S "0x8000", S "0x1000", some (S "0x100000"), none, S "-l", true, none, false,
   some (S "all"), none, false, false, false, none, none, none⟩

/-- The faketime variant of pW, used by the two-tuple witness space. -/
def pWft : Params := { pW with faketime := true }

/-- A two-tuple search space: like the hard-coded one but iterating faketime
over false then true. -/
def spW2 : SearchSpace := { sourceSearchSpace with faketime_options := [false, true] }

/-- Environment for the C1 witness: every build succeeds; only the faketime
variant hashes to the reference value "aa". -/
def envC1 : Params → Outcome := fun p =>
  if p.faketime then ⟨true, some (S "aa"), false, 5⟩ else ⟨true, some (S "bb"), false, 7⟩

/-- Environment for the C2 failing input: the one candidate builds, scores 0
differing words (below the 2000 threshold), its dump comparison is false and
its hash differs from the reference. -/
def envC2 : Params → Outcome := fun _ => ⟨true, some (S "bb"), false, 0⟩

/-- Environment for the C3 witness: builds succeed with score 5 and no hash. -/
def envC3 : Params → Outcome := fun _ => ⟨true, none, false, 5⟩

/-- os.path.exists for the witness runs: no devtable file exists. -/
def exW : Str → Bool := fun _ => false

/-- The tuple pW with an enable_compressor value, exhibiting the divergence
of the two rendering paths. -/
def pBad : Params := { pW with enable_compressor := some (S "lzo") }

/-- A two-entry source tree: the walked root and one file inside it. -/
def treeW : List FsEntry := [⟨[], true, 0, 0⟩, ⟨[S "f"], false, 0, 0⟩]

/- ----------------------------------------------------------------------
   THEOREMS
   ---------------------------------------------------------------------- -/

theorem diffCount32_mismatch (b1 b2 : List Nat) (h : (b1.take 4).length ≠ (b2.take 4).length) :
    diffCount32 b1 b2 = (if b1.take 4 ≠ [] then 1 else 0) + (if b2.take 4 ≠ [] then 1 else 0) := by
  rw [diffCount32.eq_def]
  simp only [if_pos h]

theorem diffCount32_cons (a : Nat) (r b2 : List Nat)
    (h : ((a :: r).take 4).length = (b2.take 4).length) :
    diffCount32 (a :: r) b2 =
      (if (a :: r).take 4 ≠ b2.take 4 then 1 else 0) + diffCount32 ((a :: r).drop 4) (b2.drop 4) := by
  rw [diffCount32.eq_def]
  simp only [h, ne_eq, not_true_eq_false, if_false, ite_not]

theorem chunks4_nil : chunks4 [] = [] := by
  rw [chunks4.eq_def]

theorem chunks4_cons (a : Nat) (r : List Nat) :
    chunks4 (a :: r) = ((a :: r).take 4) :: chunks4 ((a :: r).drop 4) := by
  rw [chunks4.eq_def]

theorem diffCount32_comm (b1 b2 : List Nat) : diffCount32 b1 b2 = diffCount32 b2 b1 := by
  induction b1, b2 using diffCount32.induct with
  | case1 b1 b2 c1 c2 h =>
    unfold c1 c2 at h
    rw [diffCount32_mismatch b1 b2 h, diffCount32_mismatch b2 b1 (by omega)]
    omega
  | case2 b2 c2 c1 h =>
    unfold c1 c2 at h
    cases b2 with
    | nil => rfl
    | cons c s =>
      exfalso
      apply h
      simp [List.take_succ_cons]
  | case3 b2 c2 a r c1 h ih =>
    unfold c1 c2 at h
    cases b2 with
    | nil => simp [List.length_take] at h
    | cons c s =>
      rw [diffCount32_cons a r (c :: s) (by omega),
          diffCount32_cons c s (a :: r) (by omega)]
      rw [ih]
      congr 1
      exact if_congr ne_comm rfl rfl

theorem diffCount32_eq_refCount (b1 b2 : List Nat) :
    diffCount32 b1 b2 = refCount (chunks4 b1) (chunks4 b2) := by
  induction b1, b2 using diffCount32.induct with
  | case1 b1 b2 c1 c2 h =>
    unfold c1 c2 at h
    rw [diffCount32_mismatch b1 b2 h]
    cases b1 with
    | nil =>
      cases b2 with
      | nil => simp at h
      | cons c s =>
        rw [chunks4_nil, chunks4_cons]
        rw [refCount]
        simp
    | cons a r =>
      cases b2 with
      | nil =>
        rw [chunks4_nil, chunks4_cons]
        rw [refCount]
        simp
      | cons c s =>
        rw [chunks4_cons, chunks4_cons, refCount]
        have hne : ¬((List.take 4 (a :: r)).length = (List.take 4 (c :: s)).length) := by omega
        rw [if_neg hne]
  | case2 b2 c2 c1 h =>
    unfold c1 c2 at h
    cases b2 with
    | nil =>
      rw [chunks4_nil, refCount, diffCount32.eq_def]
      simp
    | cons c s =>
      exfalso
      apply h
      simp [List.take_succ_cons]
  | case3 b2 c2 a r c1 h ih =>
    unfold c1 c2 at h
    cases b2 with
    | nil => simp [List.length_take] at h
    | cons c s =>
      rw [diffCount32_cons a r (c :: s) (by omega)]
      rw [chunks4_cons, chunks4_cons, refCount]
      have heq : (List.take 4 (a :: r)).length = (List.take 4 (c :: s)).length := by omega
      rw [if_pos heq, ih]

theorem diffCount32_eq_countP (b1 b2 : List Nat) :
    b1.length = b2.length →
    diffCount32 b1 b2 =
      ((chunks4 b1).zip (chunks4 b2)).countP (fun pr => decide (pr.1 ≠ pr.2)) := by
  induction b1, b2 using diffCount32.induct with
  | case1 b1 b2 c1 c2 hne =>
    intro h
    unfold c1 c2 at hne
    exfalso
    apply hne
    simp [List.length_take, h]
  | case2 b2 c2 c1 hne =>
    intro h
    unfold c1 c2 at hne
    have hb2 : b2 = [] := by
      cases b2 with
      | nil => rfl
      | cons c s => simp at h
    subst hb2
    rw [diffCount32.eq_def, chunks4_nil]
    simp
  | case3 b2 c2 a r c1 hne ih =>
    intro h
    unfold c1 c2 at hne
    cases b2 with
    | nil => simp at h
    | cons c s =>
      rw [diffCount32_cons a r (c :: s) (by omega)]
      rw [chunks4_cons, chunks4_cons]
      rw [List.zip_cons_cons, List.countP_cons]
      have hlen : (List.drop 4 (a :: r)).length = (List.drop 4 (c :: s)).length := by
        simp only [List.length_drop]
        omega
      rw [ih hlen]
      simp only [decide_not]
      by_cases he : List.take 4 (a :: r) = List.take 4 (c :: s)
      · simp [he]
      · have h1 : (!decide (List.take 4 (a :: r) = List.take 4 (c :: s))) = true := by
          simp only [List.take_succ_cons] at he
          simp [List.take_succ_cons]
          by_contra hc
          push_neg at hc
          exact he (by rw [hc.1, hc.2])
        rw [if_pos he, if_pos h1]
        omega

theorem countP_zip_self (l : List (List Nat)) :
    (l.zip l).countP (fun pr => decide (pr.1 ≠ pr.2)) = 0 := by
  induction l with
  | nil => rfl
  | cons x r ih =>
    rw [List.zip_cons_cons, List.countP_cons, ih]
    simp

theorem diffCount32_self (b : List Nat) : diffCount32 b b = 0 := by
  rw [diffCount32_eq_countP b b rfl, countP_zip_self]

theorem diffCount32_prefix_aux :
    ∀ (n : Nat) (b1 b2 : List Nat), b1.length ≤ n → b1 <+: b2 → b1.length < b2.length →
    diffCount32 b1 b2 =
      (if b1.drop (4 * (b1.length / 4)) ≠ [] then 1 else 0) +
      (if (b2.drop (4 * (b1.length / 4))).take 4 ≠ [] then 1 else 0) := by
  intro n
  induction n with
  | zero =>
    intro b1 b2 hn hp hl
    have hb1 : b1 = [] := List.length_eq_zero.mp (Nat.le_zero.mp hn)
    subst hb1
    cases b2 with
    | nil => simp at hl
    | cons c s =>
      rw [diffCount32_mismatch [] (c :: s) (by simp [List.take_succ_cons])]
      simp [List.take_succ_cons]
  | succ n ih =>
    intro b1 b2 hn hp hl
    cases b1 with
    | nil =>
      cases b2 with
      | nil => simp at hl
      | cons c s =>
        rw [diffCount32_mismatch [] (c :: s) (by simp [List.take_succ_cons])]
        simp [List.take_succ_cons]
    | cons a r =>
      by_cases hsmall : (a :: r).length < 4
      · have hm : (List.take 4 (a :: r)).length ≠ (List.take 4 b2).length := by
          simp only [List.length_take]
          omega
        rw [diffCount32_mismatch (a :: r) b2 hm]
        have hq : 4 * ((a :: r).length / 4) = 0 := by
          simp only [List.length_cons] at hsmall ⊢
          omega
        rw [hq]
        simp only [List.drop_zero]
        have h1 : List.take 4 (a :: r) ≠ [] := by simp [List.take_succ_cons]
        have h2 : (a :: r) ≠ [] := by simp
        rw [if_pos h1, if_pos h2]
      · push_neg at hsmall
        obtain ⟨t, rfl⟩ := hp
        have hm : (List.take 4 (a :: r)).length = (List.take 4 ((a :: r) ++ t)).length := by
          simp only [List.length_take, List.length_append]
          omega
        rw [diffCount32_cons a r ((a :: r) ++ t) hm]
        have hch : List.take 4 ((a :: r) ++ t) = List.take 4 (a :: r) := by
          rw [List.take_append_eq_append_take]
          have h0 : 4 - (a :: r).length = 0 := by omega
          rw [h0]
          simp
        rw [hch, if_neg (fun hc => hc rfl)]
        have hdr : ((a :: r) ++ t).drop 4 = (a :: r).drop 4 ++ t := by
          rw [List.drop_append_eq_append_drop]
          have h0 : 4 - (a :: r).length = 0 := by omega
          rw [h0]
          simp
        have htlen : 0 < t.length := by
          simp only [List.length_append] at hl
          omega
        have hrec := ih ((a :: r).drop 4) ((a :: r).drop 4 ++ t)
          (by simp only [List.length_drop]; omega)
          (List.prefix_append _ _)
          (by simp only [List.length_drop, List.length_append]; omega)
        rw [hdr, hrec]
        have hfuse1 : ((a :: r).drop 4).drop (4 * (((a :: r).drop 4).length / 4)) =
            (a :: r).drop (4 * ((a :: r).length / 4)) := by
          rw [List.drop_drop]
          have h4 : 4 + 4 * (((a :: r).drop 4).length / 4) = 4 * ((a :: r).length / 4) := by
            simp only [List.length_drop]
            omega
          rw [h4]
        have hfuse2 : ((a :: r).drop 4 ++ t).drop (4 * (((a :: r).drop 4).length / 4)) =
            ((a :: r) ++ t).drop (4 * ((a :: r).length / 4)) := by
          rw [← hdr, List.drop_drop]
          have h4 : 4 + 4 * (((a :: r).drop 4).length / 4) = 4 * ((a :: r).length / 4) := by
            simp only [List.length_drop]
            omega
          rw [h4]
        rw [hfuse1, hfuse2]
        omega

theorem diffCount32_prefix (b1 b2 : List Nat) (hp : b1 <+: b2) (hl : b1.length < b2.length) :
    diffCount32 b1 b2 =
      (if b1.drop (4 * (b1.length / 4)) ≠ [] then 1 else 0) +
      (if (b2.drop (4 * (b1.length / 4))).take 4 ≠ [] then 1 else 0) :=
  diffCount32_prefix_aux b1.length b1 b2 le_rfl hp hl

/-- Claim C4: for every pair of existing files, compare_binaries_32bit equals
the reference count obtained by walking both files in lockstep 4-byte chunks
(equal-length unequal chunks add 1, equal chunks add 0, and at the first
length mismatch each side's non-empty final chunk adds 1 and the walk stops);
in particular a file against itself scores 0, for equal-length files the score
is exactly the number of differing aligned chunks (so exactly one differing
aligned word scores 1), and when the shorter file is a strict prefix of the
longer the score is one per non-empty final chunk per side at the divergence
point (the shorter side's trailing partial chunk and the longer side's next
chunk, the latter always non-empty). -/
theorem C4_binary_diff_reference_count (fs : Str → Option (List Nat)) (f1 f2 : Str)
    (b1 b2 : List Nat) (h1 : fs f1 = some b1) (h2 : fs f2 = some b2) :
    compare_binaries_32bit fs f1 f2 = (refCount (chunks4 b1) (chunks4 b2) : ℕ∞)
    ∧ compare_binaries_32bit fs f1 f1 = 0
    ∧ (b1.length = b2.length →
        diffCount32 b1 b2 =
          ((chunks4 b1).zip (chunks4 b2)).countP (fun pr => decide (pr.1 ≠ pr.2)))
    ∧ (b1 <+: b2 → b1.length < b2.length →
        diffCount32 b1 b2 =
          (if b1.drop (4 * (b1.length / 4)) ≠ [] then 1 else 0) +
          (if (b2.drop (4 * (b1.length / 4))).take 4 ≠ [] then 1 else 0)) := by
  refine ⟨?_, ?_, diffCount32_eq_countP b1 b2, diffCount32_prefix b1 b2⟩
  · simp [compare_binaries_32bit, h1, h2, diffCount32_eq_refCount]
  · simp [compare_binaries_32bit, h1, diffCount32_self]

/-- Witness for C4 at concrete files: fsW maps "a" to a four-byte file, "c"
to a four-byte file differing in one aligned word, and every other path to a
five-byte extension of "a". -/
theorem C4_binary_diff_reference_count_witness :
    (compare_binaries_32bit fsW (S "a") (S "b") =
      (refCount (chunks4 [1, 2, 3, 4]) (chunks4 [1, 2, 3, 4, 7]) : ℕ∞)
    ∧ compare_binaries_32bit fsW (S "a") (S "a") = 0
    ∧ diffCount32 [1, 2, 3, 4] [1, 2, 9, 9] =
        ((chunks4 [1, 2, 3, 4]).zip (chunks4 [1, 2, 9, 9])).countP
          (fun pr => decide (pr.1 ≠ pr.2))
    ∧ diffCount32 [1, 2, 3, 4] [1, 2, 3, 4, 7] =
        (if ([1, 2, 3, 4] : List Nat).drop (4 * (([1, 2, 3, 4] : List Nat).length / 4)) ≠ []
         then 1 else 0) +
        (if (([1, 2, 3, 4, 7] : List Nat).drop
              (4 * (([1, 2, 3, 4] : List Nat).length / 4))).take 4 ≠ [] then 1 else 0)) := by
  have H1 := C4_binary_diff_reference_count fsW (S "a") (S "b") [1, 2, 3, 4] [1, 2, 3, 4, 7]
    (by decide) (by decide)
  have H2 := C4_binary_diff_reference_count fsW (S "a") (S "c") [1, 2, 3, 4] [1, 2, 9, 9]
    (by decide) (by decide)
  exact ⟨H1.1, H1.2.1, H2.2.2.1 (by decide), H1.2.2.2 (by decide) (by decide)⟩

/-- Claim C10: compare_binaries_32bit is symmetric in its two file arguments,
whether or not the files exist. -/
theorem C10_compare_binaries_32bit_symm (fs : Str → Option (List Nat)) (f1 f2 : Str) :
    compare_binaries_32bit fs f1 f2 = compare_binaries_32bit fs f2 f1 := by
  unfold compare_binaries_32bit
  cases h1 : fs f1 <;> cases h2 : fs f2 <;> simp [diffCount32_comm]

/-- Claim C8: when either file is missing, compare_binaries_32bit returns the
maximal score, strictly worse than the score of any pair of existing files,
and (being a total function in the model) does not raise. -/
theorem C8_missing_file_maximal (fs : Str → Option (List Nat)) (f1 f2 : Str)
    (h : fs f1 = none ∨ fs f2 = none) :
    compare_binaries_32bit fs f1 f2 = ⊤
    ∧ ∀ (gs : Str → Option (List Nat)) (g1 g2 : Str) (b1 b2 : List Nat),
        gs g1 = some b1 → gs g2 = some b2 →
        compare_binaries_32bit gs g1 g2 < compare_binaries_32bit fs f1 f2 := by
  have htop : compare_binaries_32bit fs f1 f2 = ⊤ := by
    rcases h with h | h
    · cases h2 : fs f2 <;> simp [compare_binaries_32bit, h, h2]
    · cases h1 : fs f1 <;> simp [compare_binaries_32bit, h, h1]
  refine ⟨htop, ?_⟩
  intro gs g1 g2 b1 b2 hg1 hg2
  rw [htop]
  simp only [compare_binaries_32bit, hg1, hg2]
  exact WithTop.coe_lt_top _

/-- Witness for C8: on the all-missing filesystem the score is maximal and
strictly above the score of a pair of existing (empty) files. -/
theorem C8_missing_file_maximal_witness :
    compare_binaries_32bit fsNoneW (S "x") (S "y") = ⊤
    ∧ compare_binaries_32bit fsSomeW (S "x") (S "y") <
        compare_binaries_32bit fsNoneW (S "x") (S "y") := by
  have H := C8_missing_file_maximal fsNoneW (S "x") (S "y") (Or.inl rfl)
  exact ⟨H.1, H.2 fsSomeW (S "x") (S "y") [] [] rfl rfl⟩

/-- The claim C6 states this match condition: both dump invocations succeed
and their 20-line texts are exactly equal.  The code additionally requires
both texts to be non-empty (Python truthiness at line 131), so the claim's
if-and-only-if fails when both dumps succeed with empty output. -/
theorem C6_counterexample :
    get_jffs2_dump (fun _ => some (0, [])) (S "img1") = some []
    ∧ get_jffs2_dump (fun _ => some (0, [])) (S "img2") = some []
    ∧ compare_jffs2_dumps (fun _ => some (0, [])) (S "img1") (S "img2") = false := by
  refine ⟨rfl, rfl, rfl⟩

/-- Claim C6 as amended: compare_jffs2_dumps declares a match iff both dump
invocations succeed (exit code 0, tool present), both truncated 20-line dump
texts are non-empty, and the two texts are exactly equal; any dump-tool
failure on either side, and also an empty dump text, yields a no-match
verdict (the model is a total function, so no exception escapes). -/
theorem C6_dump_match_iff (dumpEnv : Str → Option (Nat × Str)) (file1 file2 : Str) :
    compare_jffs2_dumps dumpEnv file1 file2 = true ↔
      ∃ dump1 dump2, get_jffs2_dump dumpEnv file1 = some dump1
        ∧ get_jffs2_dump dumpEnv file2 = some dump2
        ∧ dump1 ≠ [] ∧ dump2 ≠ [] ∧ dump1 = dump2 := by
  unfold compare_jffs2_dumps
  cases hd1 : get_jffs2_dump dumpEnv file1 with
  | none => simp [hd1]
  | some d1 =>
    cases hd2 : get_jffs2_dump dumpEnv file2 with
    | none => simp
    | some d2 =>
      by_cases hne : d1 ≠ [] ∧ d2 ≠ []
      · simp only [if_pos hne]
        constructor
        · intro he
          exact ⟨d1, d2, rfl, rfl, hne.1, hne.2, of_decide_eq_true he⟩
        · rintro ⟨e1, e2, he1, he2, -, -, heq⟩
          cases he1
          cases he2
          exact decide_eq_true heq
      · simp only [if_neg hne]
        constructor
        · intro hf
          exact absurd hf (by simp)
        · rintro ⟨e1, e2, he1, he2, hne1, hne2, -⟩
          cases he1
          cases he2
          exact absurd ⟨hne1, hne2⟩ hne

/-- Claim C7: on every exit path of compare_jffs2, including both extraction
invocations raising, the two freshly created temporary directories are gone:
the pool of temporary directories after the call equals the pool before it,
and an extraction failure is propagated as the exception rather than
swallowed. -/
theorem mem_le_foldr_max (l : List Nat) : ∀ x ∈ l, x ≤ l.foldr max 0 := by
  induction l with
  | nil =>
    intro x hx
    cases hx
  | cons a s ih =>
    intro x hx
    rcases List.mem_cons.mp hx with h | h
    · subst h
      exact le_max_left _ _
    · exact le_trans (ih x h) (le_max_right _ _)

theorem C7_extraction_cleanup (dirs0 : List Nat) (raise1 raise2 diffsEmpty : Bool) :
    (compare_jffs2 dirs0 raise1 raise2 diffsEmpty).2 = dirs0
    ∧ ((raise1 || raise2) = true →
        (compare_jffs2 dirs0 raise1 raise2 diffsEmpty).1 = Except.error ()) := by
  have h1 : ∀ x ∈ dirs0, x ≠ freshDir dirs0 := by
    intro x hx
    have := mem_le_foldr_max dirs0 x hx
    unfold freshDir
    omega
  have hd1 : freshDir dirs0 ≤ (dirs0 ++ [freshDir dirs0]).foldr max 0 :=
    mem_le_foldr_max _ _ (by simp)
  have h2 : ∀ x ∈ dirs0, x ≠ freshDir (dirs0 ++ [freshDir dirs0]) := by
    intro x hx
    have := mem_le_foldr_max (dirs0 ++ [freshDir dirs0]) x (by simp [hx])
    unfold freshDir at this ⊢
    omega
  have h12 : freshDir (dirs0 ++ [freshDir dirs0]) ≠ freshDir dirs0 := by
    unfold freshDir at hd1 ⊢
    omega
  constructor
  · simp only [compare_jffs2, List.filter_append]
    have e1 : dirs0.filter (fun d => decide (d ≠ freshDir dirs0)) = dirs0 :=
      List.filter_eq_self.mpr (fun a ha => by simpa using h1 a ha)
    have e2 : dirs0.filter (fun d => decide (d ≠ freshDir (dirs0 ++ [freshDir dirs0]))) = dirs0 :=
      List.filter_eq_self.mpr (fun a ha => by simpa using h2 a ha)
    have eB : [freshDir dirs0].filter (fun d => decide (d ≠ freshDir dirs0)) = [] := by
      simp [List.filter]
    have eC1 : [freshDir (dirs0 ++ [freshDir dirs0])].filter
        (fun d => decide (d ≠ freshDir dirs0)) = [freshDir (dirs0 ++ [freshDir dirs0])] := by
      simp [List.filter, h12]
    have eC2 : [freshDir (dirs0 ++ [freshDir dirs0])].filter
        (fun d => decide (d ≠ freshDir (dirs0 ++ [freshDir dirs0]))) = [] := by
      simp [List.filter]
    rw [e1, e2, eB, eC1, eC2]
    simp
  · intro hr
    simp only [compare_jffs2]
    rcases Bool.or_eq_true_iff.mp hr with h | h <;> simp [h]

theorem stepBody_events (env : Params → Outcome) (h : Str) (p : Params) (st : SearchState) :
    (stepBody env h p st).events =
      Ev.build p :: (if (env p).success then
        Ev.printDumpsMatch ::
          ((if (env p).dumpsMatch then [Ev.first20Match] else [])
            ++ (if (env p).score < 2000 then
                  [Ev.fileListings, Ev.analyzeFs, Ev.extractAndCompare] else []))
        else []) := by
  unfold stepBody
  by_cases hs : (env p).success
  · simp [hs]
  · simp [hs]

theorem tsNormalize_notin_stepBody (env : Params → Outcome) (h : Str) (p : Params)
    (st : SearchState) : Ev.tsNormalize ∉ (stepBody env h p st).events := by
  rw [stepBody_events]
  by_cases h1 : (env p).success <;> by_cases h2 : (env p).dumpsMatch <;>
    by_cases h3 : (env p).score < 2000 <;> simp [h1, h2, h3]

theorem compareJffs2Call_notin_stepBody (env : Params → Outcome) (h : Str) (p : Params)
    (st : SearchState) : Ev.compareJffs2Call ∉ (stepBody env h p st).events := by
  rw [stepBody_events]
  by_cases h1 : (env p).success <;> by_cases h2 : (env p).dumpsMatch <;>
    by_cases h3 : (env p).score < 2000 <;> simp [h1, h2, h3]

theorem buildsIn_stepBody (env : Params → Outcome) (h : Str) (p : Params) (st : SearchState) :
    buildsIn (stepBody env h p st).events = [p] := by
  rw [stepBody_events]
  by_cases h1 : (env p).success <;> by_cases h2 : (env p).dumpsMatch <;>
    by_cases h3 : (env p).score < 2000 <;> simp [h1, h2, h3, buildsIn]

theorem tsNormalize_notin_scanGo (env : Params → Outcome) (h : Str) :
    ∀ (l : List Params) (st : SearchState), Ev.tsNormalize ∉ (scanGo env h st l).2.2 := by
  intro l
  induction l with
  | nil =>
    intro st
    simp [scanGo]
  | cons p rest ih =>
    intro st
    simp only [scanGo]
    cases hr : (stepBody env h p st).ret with
    | some c =>
      simpa using tsNormalize_notin_stepBody env h p st
    | none =>
      simp only [List.mem_append, not_or]
      exact ⟨tsNormalize_notin_stepBody env h p st, ih _⟩

theorem compareJffs2Call_notin_scanGo (env : Params → Outcome) (h : Str) :
    ∀ (l : List Params) (st : SearchState), Ev.compareJffs2Call ∉ (scanGo env h st l).2.2 := by
  intro l
  induction l with
  | nil =>
    intro st
    simp [scanGo]
  | cons p rest ih =>
    intro st
    simp only [scanGo]
    cases hr : (stepBody env h p st).ret with
    | some c =>
      simpa using compareJffs2Call_notin_stepBody env h p st
    | none =>
      simp only [List.mem_append, not_or]
      exact ⟨compareJffs2Call_notin_stepBody env h p st, ih _⟩

theorem stepBody_ret_eq (env : Params → Outcome) (h : Str) (p : Params) (st : SearchState)
    (hne : h ≠ []) :
    (stepBody env h p st).ret =
      if (env p).success = true ∧ (env p).hash = some h then some (toCombo p) else none := by
  unfold stepBody
  by_cases hs : (env p).success
  · simp only [hs, if_true]
    cases hh : (env p).hash with
    | none => simp [hh]
    | some th =>
      by_cases hth : th = h
      · subst hth
        simp [hh, hne]
      · simp [hh, hth]
  · simp [hs]

theorem stepBody_ret_some (env : Params → Outcome) (h : Str) (p : Params) (st : SearchState)
    (c : Combo) (hr : (stepBody env h p st).ret = some c) :
    (env p).success = true ∧ c = toCombo p := by
  unfold stepBody at hr
  by_cases hs : (env p).success
  · refine ⟨hs, ?_⟩
    simp only [hs, if_true] at hr
    cases hh : (env p).hash with
    | none => simp [hh] at hr
    | some th =>
      simp only [hh] at hr
      by_cases hc : th ≠ [] ∧ th = h
      · rw [if_pos hc] at hr
        exact (Option.some_inj.mp hr).symm
      · rw [if_neg hc] at hr
        cases hr
  · simp [hs] at hr

theorem stepState_eq (env : Params → Outcome) (h : Str) (st : SearchState) (p : Params) :
    stepState env h st p =
      if (env p).success = true ∧ (env p).score < st.closest
      then ⟨(env p).score, some p⟩ else st := by
  unfold stepState stepBody
  by_cases hs : (env p).success
  · by_cases hlt : (env p).score < st.closest
    · simp [hs, hlt]
    · simp [hs, hlt]
  · simp [hs]

theorem stepBody_state_eq (env : Params → Outcome) (h : Str) (p : Params) (st : SearchState) :
    (stepBody env h p st).state = stepState env h st p := rfl

theorem scanGo_first_match (env : Params → Outcome) (h : Str) (hne : h ≠ []) :
    ∀ (pre : List Params) (t : Params) (post : List Params) (st : SearchState),
    (∀ u ∈ pre, ¬((env u).success = true ∧ (env u).hash = some h)) →
    (env t).success = true → (env t).hash = some h →
    (scanGo env h st (pre ++ t :: post)).1 = some (toCombo t)
    ∧ buildsIn (scanGo env h st (pre ++ t :: post)).2.2 = pre ++ [t] := by
  intro pre
  induction pre with
  | nil =>
    intro t post st hpre hsucc hhash
    have hr : (stepBody env h t st).ret = some (toCombo t) := by
      rw [stepBody_ret_eq env h t st hne]
      simp [hsucc, hhash]
    simp only [List.nil_append, scanGo, hr]
    exact ⟨trivial, buildsIn_stepBody env h t st⟩
  | cons u pre ih =>
    intro t post st hpre hsucc hhash
    have hu : ¬((env u).success = true ∧ (env u).hash = some h) := hpre u (by simp)
    have hr : (stepBody env h u st).ret = none := by
      rw [stepBody_ret_eq env h u st hne]
      exact if_neg hu
    have hrest := ih t post (stepBody env h u st).state
      (fun v hv => hpre v (by simp [hv])) hsucc hhash
    simp only [List.cons_append, scanGo, hr]
    refine ⟨hrest.1, ?_⟩
    unfold buildsIn at hrest ⊢
    rw [List.filterMap_append]
    have h1 : List.filterMap (fun e => match e with | Ev.build q => some q | _ => none)
        (stepBody env h u st).events = [u] := buildsIn_stepBody env h u st
    rw [h1]
    simpa using hrest.2

theorem scanGo_ret_success (env : Params → Outcome) (h : Str) :
    ∀ (l : List Params) (st : SearchState) (c : Combo),
    (scanGo env h st l).1 = some c → ∃ t, (env t).success = true ∧ toCombo t = c := by
  intro l
  induction l with
  | nil =>
    intro st c hc
    simp [scanGo] at hc
  | cons p rest ih =>
    intro st c hc
    simp only [scanGo] at hc
    cases hr : (stepBody env h p st).ret with
    | some c2 =>
      rw [hr] at hc
      simp only at hc
      obtain ⟨hsucc, hco⟩ := stepBody_ret_some env h p st c2 hr
      exact ⟨p, hsucc, by rw [← hco]; exact Option.some_inj.mp hc⟩
    | none =>
      rw [hr] at hc
      simp only at hc
      exact ih _ c hc

theorem stepState_preserves_success (env : Params → Outcome) (h : Str) (st : SearchState)
    (p : Params) (hst : ∀ t, st.closestTuple = some t → (env t).success = true) :
    ∀ t, (stepState env h st p).closestTuple = some t → (env t).success = true := by
  intro t ht
  rw [stepState_eq] at ht
  by_cases hc : (env p).success = true ∧ (env p).score < st.closest
  · rw [if_pos hc] at ht
    simp only at ht
    cases ht
    exact hc.1
  · rw [if_neg hc] at ht
    exact hst t ht

theorem scanGo_state_success (env : Params → Outcome) (h : Str) :
    ∀ (l : List Params) (st : SearchState),
    (∀ t, st.closestTuple = some t → (env t).success = true) →
    ∀ t, ((scanGo env h st l).2.1).closestTuple = some t → (env t).success = true := by
  intro l
  induction l with
  | nil =>
    intro st hst t ht
    simp only [scanGo] at ht
    exact hst t ht
  | cons p rest ih =>
    intro st hst t ht
    simp only [scanGo] at ht
    cases hr : (stepBody env h p st).ret with
    | some c =>
      rw [hr] at ht
      simp only at ht
      rw [stepBody_state_eq] at ht
      exact stepState_preserves_success env h st p hst t ht
    | none =>
      rw [hr] at ht
      simp only at ht
      refine ih (stepBody env h p st).state ?_ t ht
      rw [stepBody_state_eq]
      exact stepState_preserves_success env h st p hst

theorem foldl_closest_sound (env : Params → Outcome) (h : Str) :
    ∀ (l : List Params) (st : SearchState),
    (∀ t, st.closestTuple = some t → (env t).success = true ∧ (env t).score = st.closest) →
    ∀ t, (l.foldl (stepState env h) st).closestTuple = some t →
      (env t).success = true ∧ (env t).score = (l.foldl (stepState env h) st).closest
      ∧ (t ∈ l ∨ st.closestTuple = some t) := by
  intro l
  induction l with
  | nil =>
    intro st hst t ht
    simp only [List.foldl_nil] at ht ⊢
    exact ⟨(hst t ht).1, (hst t ht).2, Or.inr ht⟩
  | cons p rest ih =>
    intro st hst t ht
    simp only [List.foldl_cons] at ht ⊢
    have hinv : ∀ v, (stepState env h st p).closestTuple = some v →
        (env v).success = true ∧ (env v).score = (stepState env h st p).closest := by
      intro v hv
      rw [stepState_eq] at hv ⊢
      by_cases hc : (env p).success = true ∧ (env p).score < st.closest
      · rw [if_pos hc] at hv ⊢
        simp only at hv ⊢
        cases hv
        exact ⟨hc.1, rfl⟩
      · rw [if_neg hc] at hv ⊢
        exact hst v hv
    obtain ⟨hsucc, hscore, hmem⟩ := ih (stepState env h st p) hinv t ht
    refine ⟨hsucc, hscore, ?_⟩
    rcases hmem with hmem | hmem
    · exact Or.inl (List.mem_cons_of_mem p hmem)
    · rw [stepState_eq] at hmem
      by_cases hc : (env p).success = true ∧ (env p).score < st.closest
      · rw [if_pos hc] at hmem
        simp only at hmem
        cases hmem
        exact Or.inl (List.mem_cons_self p rest)
      · rw [if_neg hc] at hmem
        exact Or.inr hmem

theorem stepState_closest_le (env : Params → Outcome) (h : Str) (st : SearchState) (p : Params) :
    (stepState env h st p).closest ≤ st.closest := by
  rw [stepState_eq]
  by_cases hc : (env p).success = true ∧ (env p).score < st.closest
  · rw [if_pos hc]
    exact le_of_lt hc.2
  · rw [if_neg hc]

theorem foldl_closest_mono (env : Params → Outcome) (h : Str) :
    ∀ (l : List Params) (st : SearchState),
    (l.foldl (stepState env h) st).closest ≤ st.closest := by
  intro l
  induction l with
  | nil =>
    intro st
    simp
  | cons p rest ih =>
    intro st
    simp only [List.foldl_cons]
    exact le_trans (ih (stepState env h st p)) (stepState_closest_le env h st p)

/-- Claim C1: when the tuples before t never satisfy the exact-match test and
t builds successfully with the reference hash, the search returns t's
combination immediately: the build attempts are exactly the tuples up to and
including t, and no tuple after t is ever built or scored. -/
theorem C1_exact_match_short_circuit (env : Params → Outcome) (h : Str) (sp : SearchSpace)
    (tree : List FsEntry) (pre post : List Params) (t : Params)
    (hne : h ≠ []) (hsplit : allTuples sp = pre ++ t :: post)
    (hpre : ∀ u ∈ pre, ¬((env u).success = true ∧ (env u).hash = some h))
    (hsucc : (env t).success = true) (hhash : (env t).hash = some h) :
    (scanLoop env (some h) sp tree).result = some (toCombo t)
    ∧ buildsIn (scanLoop env (some h) sp tree).trace = pre ++ [t] := by
  have H := scanGo_first_match env h hne pre t post ⟨⊤, none⟩ hpre hsucc hhash
  unfold scanLoop
  dsimp only
  rw [if_neg hne, hsplit]
  rw [H.1]
  simp only
  refine ⟨trivial, ?_⟩
  unfold buildsIn
  rw [List.filterMap_cons]
  simp only
  exact H.2

/-- Witness for C1: in the two-tuple space spW2 the match sits at position 2
of 2; the engine reports exactly two build attempts and returns the matching
tuple's combination. -/
theorem C1_exact_match_short_circuit_witness :
    (scanLoop envC1 (some (S "aa")) spW2 treeW).result = some (toCombo pWft)
    ∧ buildsIn (scanLoop envC1 (some (S "aa")) spW2 treeW).trace = [pW] ++ [pWft] :=
  C1_exact_match_short_circuit envC1 (S "aa") spW2 treeW [pW] [] pWft
    (by decide) (by decide) (by decide) (by decide) (by decide)

/-- Claim C3: the BestMatch tracker only ever holds a successfully built
candidate whose score is the tracked closest score; the closest score is
non-increasing across the iteration sequence; a candidate that does not
strictly improve the closest score (ties included) leaves the tracker
unchanged, so the first-found candidate wins ties; and any combination the
search returns, on exact match or on exhaustion, comes from a candidate whose
build succeeded. -/
theorem C3_best_match_invariants :
    (∀ (env : Params → Outcome) (h : Str) (l : List Params) (t : Params),
      (l.foldl (stepState env h) ⟨⊤, none⟩).closestTuple = some t →
        (env t).success = true
        ∧ (env t).score = (l.foldl (stepState env h) ⟨⊤, none⟩).closest
        ∧ t ∈ l)
    ∧ (∀ (env : Params → Outcome) (h : Str) (l : List Params) (st : SearchState),
        (l.foldl (stepState env h) st).closest ≤ st.closest)
    ∧ (∀ (env : Params → Outcome) (h : Str) (st : SearchState) (p : Params),
        ¬((env p).score < st.closest) → stepState env h st p = st)
    ∧ (∀ (env : Params → Outcome) (origHash : Option Str) (sp : SearchSpace)
        (tree : List FsEntry) (c : Combo),
        (scanLoop env origHash sp tree).result = some c →
        ∃ t, (env t).success = true ∧ toCombo t = c) := by
  refine ⟨?_, ?_, ?_, ?_⟩
  · intro env h l t ht
    have H := foldl_closest_sound env h l ⟨⊤, none⟩ (by intro v hv; cases hv) t ht
    refine ⟨H.1, H.2.1, ?_⟩
    rcases H.2.2 with hm | hm
    · exact hm
    · cases hm
  · intro env h l st
    exact foldl_closest_mono env h l st
  · intro env h st p hno
    rw [stepState_eq]
    exact if_neg (fun hc => hno hc.2)
  · intro env origHash sp tree c hres
    unfold scanLoop at hres
    dsimp only at hres
    cases origHash with
    | none => simp at hres
    | some h =>
      dsimp only at hres
      by_cases hne : h = []
      · rw [if_pos hne] at hres
        simp at hres
      · rw [if_neg hne] at hres
        cases hr : (scanGo env h ⟨⊤, none⟩ (allTuples sp)).1 with
        | some c2 =>
          rw [hr] at hres
          simp only at hres
          have H2 := scanGo_ret_success env h (allTuples sp) ⟨⊤, none⟩ c2 hr
          rwa [Option.some_inj.mp hres] at H2
        | none =>
          rw [hr] at hres
          simp only at hres
          obtain ⟨t, ht, hco⟩ := Option.map_eq_some'.mp hres
          refine ⟨t, ?_, hco⟩
          exact scanGo_state_success env h (allTuples sp) ⟨⊤, none⟩
            (by intro v hv; cases hv) t ht

/-- Witness for C3: after one successful iteration of envC3 the tracker holds
that candidate, with its score as the closest score. -/
theorem C3_best_match_invariants_witness :
    (envC3 pW).success = true
    ∧ (envC3 pW).score = (([pW]).foldl (stepState envC3 (S "zz")) ⟨⊤, none⟩).closest
    ∧ pW ∈ [pW] :=
  C3_best_match_invariants.1 envC3 (S "zz") [pW] pW (by decide)

/-- Claim C2 fails on the code: line 508 binds dumps_match_v2 to the function
object compare_jffs2 without calling it, so the extraction tree-diff
comparator of section 4.4 is never invoked in any search run; for a candidate
scoring below 2000 the loop instead runs compare_file_listings,
analyze_filesystem_structure and extract_and_compare_files (the last compares
raw bytes, not extracted trees), and because a function object is truthy the
engine prints the dumps-match message even when the dump comparison is false.
The concrete run below shows the full trace at a candidate scoring 0. -/
theorem C2_extraction_comparator_never_runs :
    (∀ (env : Params → Outcome) (origHash : Option Str) (sp : SearchSpace)
      (tree : List FsEntry),
      Ev.compareJffs2Call ∉ (scanLoop env origHash sp tree).trace)
    ∧ (scan_for_correct_build_args envC2 (some (S "aa")) []).trace =
        [Ev.tsNormalize, Ev.build pW, Ev.printDumpsMatch,
         Ev.fileListings, Ev.analyzeFs, Ev.extractAndCompare]
    ∧ (envC2 pW).score < 2000 ∧ (envC2 pW).dumpsMatch = false := by
  refine ⟨?_, by decide, by decide, by decide⟩
  intro env origHash sp tree
  unfold scanLoop
  dsimp only
  cases origHash with
  | none => simp
  | some h =>
    dsimp only
    by_cases hne : h = []
    · rw [if_pos hne]
      simp
    · rw [if_neg hne]
      cases hr : (scanGo env h ⟨⊤, none⟩ (allTuples sp)).1 with
      | some c =>
        dsimp only
        simp only [List.mem_cons, not_or]
        exact ⟨by simp, compareJffs2Call_notin_scanGo env h (allTuples sp) ⟨⊤, none⟩⟩
      | none =>
        dsimp only
        simp only [List.mem_cons, not_or]
        exact ⟨by simp, compareJffs2Call_notin_scanGo env h (allTuples sp) ⟨⊤, none⟩⟩

/-- The claim C9 states that the normalizer sets the timestamps of every file
and every directory of the source tree; on the two-entry tree treeW the walked
root directory itself keeps its old timestamps, so the universally quantified
claim is false. -/
theorem C9_counterexample :
    ((set_timestamps_recursively treeW 1704288652).all
      (fun e => decide (e.mtime = 1704288652 ∧ e.atime = 1704288652))) = false := by
  decide

/-- Claim C9 as amended: before the first candidate build (indeed before the
reference digest is even read) the Timestamp Normalizer runs exactly once;
it sets both modification and access time of every entry strictly below the
walked root to the fixed instant and leaves the root entry itself unchanged;
and the tree is not touched again during the search (the run's final tree is
exactly the once-normalized tree, and the normalize event occurs exactly once,
at the head of the trace, before every build event). -/
theorem C9_timestamp_normalize_once (tree : List FsEntry) (u : Nat) :
    (∀ e ∈ set_timestamps_recursively tree u, e.path ≠ [] → e.mtime = u ∧ e.atime = u)
    ∧ (∀ e ∈ tree, e.path = [] → e ∈ set_timestamps_recursively tree u)
    ∧ (∀ e ∈ tree, e.path ≠ [] →
        { e with mtime := u, atime := u } ∈ set_timestamps_recursively tree u)
    ∧ (∀ (env : Params → Outcome) (origHash : Option Str) (sp : SearchSpace),
        ∃ rest, (scanLoop env origHash sp tree).trace = Ev.tsNormalize :: rest
          ∧ Ev.tsNormalize ∉ rest
          ∧ (scanLoop env origHash sp tree).tree = set_timestamps_recursively tree 1704288652) := by
  refine ⟨?_, ?_, ?_, ?_⟩
  · intro e he hne
    obtain ⟨x, hx, hfx⟩ := List.mem_map.mp he
    by_cases hp : x.path = []
    · rw [if_pos hp] at hfx
      subst hfx
      exact absurd hp hne
    · rw [if_neg hp] at hfx
      subst hfx
      exact ⟨rfl, rfl⟩
  · intro e he hp
    have : (if e.path = [] then e else { e with mtime := u, atime := u }) = e := if_pos hp
    rw [← this]
    exact List.mem_map_of_mem _ he
  · intro e he hp
    have : (if e.path = [] then e else { e with mtime := u, atime := u }) =
        { e with mtime := u, atime := u } := if_neg hp
    rw [← this]
    exact List.mem_map_of_mem _ he
  · intro env origHash sp
    unfold scanLoop
    dsimp only
    cases origHash with
    | none => exact ⟨[], rfl, by simp, rfl⟩
    | some h =>
      dsimp only
      by_cases hne : h = []
      · rw [if_pos hne]
        exact ⟨[], rfl, by simp, rfl⟩
      · rw [if_neg hne]
        cases hr : (scanGo env h ⟨⊤, none⟩ (allTuples sp)).1 with
        | some c =>
          exact ⟨_, rfl, tsNormalize_notin_scanGo env h (allTuples sp) ⟨⊤, none⟩, rfl⟩
        | none =>
          exact ⟨_, rfl, tsNormalize_notin_scanGo env h (allTuples sp) ⟨⊤, none⟩, rfl⟩

/-- Witness for C9 at the concrete two-entry tree: the file entry is found
normalized, the root entry is preserved, and a run of the engine on treeW
emits the normalize event once, first. -/
theorem C9_timestamp_normalize_once_witness :
    (FsEntry.mk [S "f"] false 1704288652 1704288652 ∈
      set_timestamps_recursively treeW 1704288652)
    ∧ (FsEntry.mk [] true 0 0 ∈ set_timestamps_recursively treeW 1704288652)
    ∧ ∃ rest, (scanLoop envC2 (some (S "aa")) sourceSearchSpace treeW).trace =
        Ev.tsNormalize :: rest ∧ Ev.tsNormalize ∉ rest
        ∧ (scanLoop envC2 (some (S "aa")) sourceSearchSpace treeW).tree =
            set_timestamps_recursively treeW 1704288652 := by
  have H := C9_timestamp_normalize_once treeW 1704288652
  exact ⟨H.2.2.1 ⟨[S "f"], false, 0, 0⟩ (by decide) (by decide),
         H.2.1 ⟨[], true, 0, 0⟩ (by decide) (by decide),
         H.2.2.2 envC2 (some (S "aa")) sourceSearchSpace⟩

theorem pySplitAux_append_space (a : Str) :
    ∀ (cur : Str) (b : Str),
    pySplitAux cur (a ++ ' ' :: b) = pySplitAux cur a ++ pySplitAux [] b := by
  induction a with
  | nil =>
    intro cur b
    simp only [List.nil_append, pySplitAux]
    have hsp : pyIsSpace ' ' = true := by decide
    rw [if_pos hsp]
    by_cases hc : cur = []
    · rw [if_pos hc, if_pos hc]
      simp
    · rw [if_neg hc, if_neg hc]
      simp
  | cons c a ih =>
    intro cur b
    simp only [List.cons_append, pySplitAux, List.append_eq]
    by_cases hsp : pyIsSpace c = true
    · rw [if_pos hsp, if_pos hsp]
      by_cases hc : cur = []
      · rw [if_pos hc, if_pos hc, ih]
      · rw [if_neg hc, if_neg hc, ih]
        simp
    · rw [if_neg hsp, if_neg hsp, ih]

theorem pySplit_append_space (a b : Str) :
    pySplit (a ++ ' ' :: b) = pySplit a ++ pySplit b :=
  pySplitAux_append_space a [] b

theorem pySplitAux_no_ws :
    ∀ (t cur : Str), (∀ c ∈ t, pyIsSpace c = false) →
    pySplitAux cur t = if cur = [] ∧ t = [] then [] else [cur.reverse ++ t] := by
  intro t
  induction t with
  | nil =>
    intro cur hws
    simp only [pySplitAux]
    by_cases hc : cur = []
    · rw [if_pos hc, if_pos ⟨hc, by trivial⟩]
    · rw [if_neg hc, if_neg (fun hx => hc hx.1)]
      simp
  | cons c t ih =>
    intro cur hws
    simp only [pySplitAux]
    have hc : pyIsSpace c = false := hws c (by simp)
    rw [if_neg (by simp [hc])]
    rw [ih (c :: cur) (fun x hx => hws x (by simp [hx]))]
    rw [if_neg (by simp)]
    rw [if_neg (fun hx => by cases hx.2)]
    simp

theorem pySplit_no_ws (t : Str) (hne : t ≠ []) (hws : ∀ c ∈ t, pyIsSpace c = false) :
    pySplit t = [t] := by
  unfold pySplit
  rw [pySplitAux_no_ws t [] hws, if_neg (fun hx => hne hx.2)]
  simp

theorem pySplit_pyJoin : ∀ (frags : List Str),
    pySplit (pyJoin frags) = frags.flatMap pySplit := by
  intro frags
  induction frags with
  | nil => rfl
  | cons x rest ih =>
    cases rest with
    | nil => simp [pyJoin]
    | cons y r =>
      simp only [pyJoin, List.flatMap_cons]
      rw [pySplit_append_space, ih]
      simp [List.flatMap_cons]

theorem canonTok_clean (v : Str) (h : cleanVal v) : canonTok v = [v] := by
  unfold canonTok
  rw [h.2.2.1, h.2.2.2]
  simp

theorem canonTok_padEq (v : Str) : canonTok (S "--pad=" ++ v) = [S "-p", v] := by
  unfold canonTok
  have hp : (S "--pad=").isPrefixOf (S "--pad=" ++ v) = true := by
    rw [List.isPrefixOf_iff_prefix]
    exact List.prefix_append _ _
  rw [hp]
  simp only [if_true]
  have h6 : (6 : Nat) = (S "--pad=").length := rfl
  rw [h6, List.drop_left]

theorem canonTok_cmodeEq (v : Str) :
    canonTok (S "--compression-mode=" ++ v) = [S "-m", v] := by
  unfold canonTok
  have hp : (S "--pad=").isPrefixOf (S "--compression-mode=" ++ v) = false := by
    have h1 : S "--pad=" = '-' :: '-' :: 'p' :: S "ad=" := rfl
    have h2 : S "--compression-mode=" ++ v =
        '-' :: '-' :: 'c' :: (S "ompression-mode=" ++ v) := rfl
    rw [h1, h2]
    simp [List.isPrefixOf]
  have hm : (S "--compression-mode=").isPrefixOf (S "--compression-mode=" ++ v) = true := by
    rw [List.isPrefixOf_iff_prefix]
    exact List.prefix_append _ _
  rw [hp, hm]
  simp only [Bool.false_eq_true, if_false, if_true]
  have h19 : (19 : Nat) = (S "--compression-mode=").length := rfl
  rw [h19, List.drop_left]

theorem canonToks_append (l1 l2 : List Str) :
    canonToks (l1 ++ l2) = canonToks l1 ++ canonToks l2 := by
  unfold canonToks
  rw [List.flatMap_append]

theorem canonToks_cons (t : Str) (l : List Str) :
    canonToks (t :: l) = canonTok t ++ canonToks l := by
  unfold canonToks
  rw [List.flatMap_cons]

theorem optClean_cleanVal (o : Option Str) (v : Str) (ho : optClean o) (h : o = some v)
    (hv : v ≠ []) : cleanVal v := (ho v h).resolve_left hv

theorem canonToks_optPairArg (f : Str) (hf : canonTok f = [f]) (o : Option Str)
    (ho : optClean o) : canonToks (optPairArg f o) = optPairArg f o := by
  cases o with
  | none => rfl
  | some v =>
    simp only [optPairArg]
    by_cases hv : v = []
    · rw [if_neg (by simp [hv])]
      rfl
    · rw [if_pos hv]
      rw [canonToks_cons, canonToks_cons, hf,
        canonTok_clean v (optClean_cleanVal _ v ho rfl hv)]
      rfl

theorem canonToks_ifFlag (b : Prop) [Decidable b] (t : Str) (ht : canonTok t = [t]) :
    canonToks (if b then [t] else []) = if b then [t] else [] := by
  by_cases hb : b
  · rw [if_pos hb, canonToks_cons, ht]
    rfl
  · rw [if_neg hb]
    rfl

theorem canonToks_squashFrag (o : Option Str) :
    canonToks (squashFrag o) = squashFrag o := by
  unfold squashFrag
  split_ifs <;> decide

theorem canonToks_devSeg (ex : Str → Bool) (o : Option Str) (ho : optClean o) :
    canonToks (devSeg ex o) = devSeg ex o := by
  cases o with
  | none => rfl
  | some v =>
    simp only [devSeg]
    by_cases hc : v ≠ [] ∧ ex v
    · simp only [if_pos hc]
      rw [canonToks_cons, canonToks_cons,
        show canonTok (S "-D") = [S "-D"] by decide,
        canonTok_clean v (optClean_cleanVal _ v ho rfl hc.1)]
      rfl
    · simp only [if_neg hc]
      rfl

theorem canonToks_endSeg (e : Str) (hend : e = [] ∨ cleanVal e) :
    canonToks (if e ≠ [] then [e] else []) = if e ≠ [] then [e] else [] := by
  rcases hend with he | he
  · rw [if_neg (by simp [he])]
    rfl
  · rw [if_pos he.1, canonToks_cons, canonTok_clean e he]
    rfl

theorem canonToks_restSegs (ex : Str → Bool) (p : Params)
    (hend : p.endianness = [] ∨ cleanVal p.endianness)
    (hcm : optClean p.cleanmarker_size) (hmode : optClean p.compr_mode)
    (hdev : optClean p.devtable) :
    canonToks (restSegs ex p) = restSegs ex p := by
  unfold restSegs
  repeat rw [canonToks_append]
  rw [canonToks_endSeg p.endianness hend,
    canonToks_ifFlag _ (S "-n") (by decide),
    canonToks_optPairArg (S "-c") (by decide) _ hcm,
    canonToks_ifFlag _ (S "-f") (by decide),
    canonToks_squashFrag,
    canonToks_optPairArg (S "-m") (by decide) _ hmode,
    canonToks_ifFlag _ (S "--with-xattr") (by decide),
    canonToks_ifFlag _ (S "--with-selinux") (by decide),
    canonToks_ifFlag _ (S "--with-posix-acl") (by decide),
    canonToks_devSeg ex p.devtable hdev]

theorem noWS_append (a b : Str) (ha : ∀ c ∈ a, pyIsSpace c = false)
    (hb : ∀ c ∈ b, pyIsSpace c = false) : ∀ c ∈ a ++ b, pyIsSpace c = false := by
  intro c hc
  rcases List.mem_append.mp hc with h | h
  · exact ha c h
  · exact hb c h

theorem canon_pair_frag (f v : Str) (hfne : f ≠ []) (hfws : ∀ c ∈ f, pyIsSpace c = false)
    (hft : canonTok f = [f]) (hv : cleanVal v) :
    canonToks (pySplit (f ++ ' ' :: v)) = [f, v] := by
  rw [pySplit_append_space, pySplit_no_ws f hfne hfws, pySplit_no_ws v hv.1 hv.2.1]
  rw [show ([f] ++ [v] : List Str) = [f, v] from rfl]
  rw [canonToks_cons, canonToks_cons, hft, canonTok_clean v hv]
  rfl

theorem canon_loop_optSpaceFrag (f : Str) (hfne : f ≠ [])
    (hfws : ∀ c ∈ f, pyIsSpace c = false) (hft : canonTok f = [f])
    (o : Option Str) (ho : optClean o) :
    canonToks ((optSpaceFrag f o).flatMap pySplit) = optPairArg f o := by
  cases o with
  | none => rfl
  | some v =>
    simp only [optSpaceFrag, optPairArg]
    by_cases hv : v = []
    · rw [if_neg (by simp [hv]), if_neg (by simp [hv])]
      rfl
    · rw [if_pos hv, if_pos hv, List.flatMap_cons, List.flatMap_nil, List.append_nil]
      exact canon_pair_frag f v hfne hfws hft (optClean_cleanVal _ v ho rfl hv)

theorem canon_loop_padFrag (o : Option Str) (ho : optClean o) :
    canonToks ((optEqFrag (S "--pad=") o).flatMap pySplit) = optPairArg (S "-p") o := by
  cases o with
  | none => rfl
  | some v =>
    simp only [optEqFrag, optPairArg]
    by_cases hv : v = []
    · rw [if_neg (by simp [hv]), if_neg (by simp [hv])]
      rfl
    · rw [if_pos hv, if_pos hv, List.flatMap_cons, List.flatMap_nil, List.append_nil]
      have hcv := optClean_cleanVal _ v ho rfl hv
      rw [pySplit_no_ws (S "--pad=" ++ v) (by simp [hv])
        (noWS_append _ _ (by decide) hcv.2.1)]
      rw [canonToks_cons, canonTok_padEq]
      rfl

theorem canon_loop_cmodeFrag (o : Option Str) (ho : optClean o) :
    canonToks ((optEqFrag (S "--compression-mode=") o).flatMap pySplit) =
      optPairArg (S "-m") o := by
  cases o with
  | none => rfl
  | some v =>
    simp only [optEqFrag, optPairArg]
    by_cases hv : v = []
    · rw [if_neg (by simp [hv]), if_neg (by simp [hv])]
      rfl
    · rw [if_pos hv, if_pos hv, List.flatMap_cons, List.flatMap_nil, List.append_nil]
      have hcv := optClean_cleanVal _ v ho rfl hv
      rw [pySplit_no_ws (S "--compression-mode=" ++ v) (by simp [hv])
        (noWS_append _ _ (by decide) hcv.2.1)]
      rw [canonToks_cons, canonTok_cmodeEq]
      rfl

theorem canon_loop_endSeg (e : Str) (he : e = [] ∨ cleanVal e) :
    canonToks (([e] : List Str).flatMap pySplit) = if e ≠ [] then [e] else [] := by
  rcases he with he | he
  · subst he
    rw [if_neg (by simp)]
    rfl
  · rw [if_pos he.1, List.flatMap_cons, List.flatMap_nil, List.append_nil,
      pySplit_no_ws e he.1 he.2.1, canonToks_cons, canonTok_clean e he]
    rfl

theorem canon_loop_ifFlag (b : Prop) [Decidable b] (t : Str)
    (ht : canonToks (pySplit t) = [t]) :
    canonToks ((if b then [t] else []).flatMap pySplit) = if b then [t] else [] := by
  by_cases hb : b
  · rw [if_pos hb, List.flatMap_cons, List.flatMap_nil, List.append_nil, ht]
  · rw [if_neg hb]
    rfl

theorem canon_loop_squash (o : Option Str) :
    canonToks ((squashFrag o).flatMap pySplit) = squashFrag o := by
  unfold squashFrag
  split_ifs <;> decide

theorem canon_loop_devFrag (ex : Str → Bool) (o : Option Str) (ho : optClean o) :
    canonToks ((devFrag ex o).flatMap pySplit) = devSeg ex o := by
  cases o with
  | none => rfl
  | some v =>
    simp only [devFrag, devSeg]
    by_cases hc : v ≠ [] ∧ ex v
    · rw [if_pos hc, if_pos hc, List.flatMap_cons, List.flatMap_nil, List.append_nil]
      exact canon_pair_frag (S "-D") v (by decide) (by decide) (by decide)
        (optClean_cleanVal _ v ho rfl hc.1)
    · rw [if_neg hc, if_neg hc]
      rfl

theorem canon_loop_emptyOpt (pre : Str) (o : Option Str)
    (ho : o = none ∨ o = some []) :
    canonToks ((optEqFrag pre o).flatMap pySplit) = [] := by
  rcases ho with ho | ho <;> subst ho
  · rfl
  · simp only [optEqFrag]
    rw [if_neg (by simp)]
    rfl

theorem canonToks_eSeg (e s : Str) (he : cleanVal e) (hs : cleanVal s) :
    canonToks [S "-e", e, S "-s", s] = [S "-e", e, S "-s", s] := by
  rw [canonToks_cons, canonToks_cons, canonToks_cons, canonToks_cons,
    show canonTok (S "-e") = [S "-e"] from by decide,
    show canonTok (S "-s") = [S "-s"] from by decide,
    canonTok_clean e he, canonTok_clean s hs]
  rfl

theorem named_squashChain (o : Option Str) :
    (if (decide (o = some (S "all"))) = true then [S "-q"]
     else if (decide (o = some (S "uids"))) = true then [S "-U"]
     else if (decide (o = some (S "perms"))) = true then [S "-P"] else []) =
    squashFrag o := by
  unfold squashFrag
  by_cases h1 : o = some (S "all")
  · simp [h1]
  · by_cases h2 : o = some (S "uids")
    · simp [h1, h2]
    · by_cases h3 : o = some (S "perms")
      · simp [h1, h2, h3]
      · simp [h1, h2, h3]

theorem canonNamed_eq (ex : Str → Bool) (src out : Str) (p : Params)
    (he : cleanVal p.erase_size) (hs : cleanVal p.page_size)
    (hpad : optClean p.pad_size) (hq : optClean p.compression)
    (hend : p.endianness = [] ∨ cleanVal p.endianness)
    (hcm : optClean p.cleanmarker_size) (hmode : optClean p.compr_mode)
    (hdev : optClean p.devtable) :
    canonToks (build_jffs2_cmd ex src out p.erase_size p.page_size p.pad_size p.compression
      p.endianness p.no_cleanmarkers p.cleanmarker_size p.faketime
      (decide (p.squash = some (S "perms"))) (decide (p.squash = some (S "uids")))
      (decide (p.squash = some (S "all"))) p.compr_mode p.with_xattr p.with_selinux
      p.with_posix_acl p.devtable p.disabled_compressor p.enable_compressor) =
      canonToks [S "wsl", S "mkfs.jffs2", S "-r", src, S "-o", out]
      ++ ([S "-e", p.erase_size, S "-s", p.page_size]
      ++ (optPairArg (S "-q") p.compression
      ++ (optPairArg (S "-p") p.pad_size
      ++ restSegs ex p))) := by
  unfold build_jffs2_cmd
  rw [show ([S "wsl", S "mkfs.jffs2", S "-r", src, S "-o", out,
      S "-e", p.erase_size, S "-s", p.page_size] : List Str) =
    [S "wsl", S "mkfs.jffs2", S "-r", src, S "-o", out]
      ++ [S "-e", p.erase_size, S "-s", p.page_size] from rfl]
  rw [named_squashChain p.squash]
  rw [show (match p.devtable with
      | some v => if v ≠ [] ∧ ex v then [S "-D", v] else []
      | none => []) = devSeg ex p.devtable from rfl]
  repeat rw [canonToks_append]
  rw [canonToks_eSeg p.erase_size p.page_size he hs]
  rw [canonToks_optPairArg (S "-q") (by decide) _ hq,
    canonToks_optPairArg (S "-p") (by decide) _ hpad,
    canonToks_endSeg p.endianness hend,
    canonToks_ifFlag _ (S "-n") (by decide),
    canonToks_optPairArg (S "-c") (by decide) _ hcm,
    canonToks_ifFlag _ (S "-f") (by decide),
    canonToks_squashFrag,
    canonToks_optPairArg (S "-m") (by decide) _ hmode,
    canonToks_ifFlag _ (S "--with-xattr") (by decide),
    canonToks_ifFlag _ (S "--with-selinux") (by decide),
    canonToks_ifFlag _ (S "--with-posix-acl") (by decide),
    canonToks_devSeg ex p.devtable hdev]
  unfold restSegs
  simp only [List.append_assoc, List.cons_append, List.nil_append]

theorem canon_loop_eSeg (e s : Str) (he : cleanVal e) (hs : cleanVal s) :
    canonToks (([S "-e" ++ (' ' :: e), S "-s" ++ (' ' :: s)] : List Str).flatMap pySplit) =
      [S "-e", e, S "-s", s] := by
  rw [List.flatMap_cons, List.flatMap_cons, List.flatMap_nil, List.append_nil,
    canonToks_append]
  rw [canon_pair_frag (S "-e") e (by decide) (by decide) (by decide) he,
    canon_pair_frag (S "-s") s (by decide) (by decide) (by decide) hs]
  rfl

theorem canonLoop_eq (ex : Str → Bool) (src out : Str) (p : Params)
    (he : cleanVal p.erase_size) (hs : cleanVal p.page_size)
    (hpad : optClean p.pad_size) (hq : optClean p.compression)
    (hend : p.endianness = [] ∨ cleanVal p.endianness)
    (hcm : optClean p.cleanmarker_size) (hmode : optClean p.compr_mode)
    (hdev : optClean p.devtable)
    (hdc : p.disabled_compressor = none ∨ p.disabled_compressor = some [])
    (hec : p.enable_compressor = none ∨ p.enable_compressor = some []) :
    canonToks (build_jffs2_from_params_cmd src out (scanParamStr ex p)) =
      canonToks [S "wsl", S "mkfs.jffs2", S "-r", src, S "-o", out]
      ++ ([S "-e", p.erase_size, S "-s", p.page_size]
      ++ (optPairArg (S "-p") p.pad_size
      ++ (optPairArg (S "-q") p.compression
      ++ restSegs ex p))) := by
  unfold build_jffs2_from_params_cmd scanParamStr
  rw [pySplit_pyJoin, canonToks_append]
  congr 1
  unfold scanParamsList
  rw [show ([S "-e" ++ (' ' :: p.erase_size), S "-s" ++ (' ' :: p.page_size)] : List Str)
      ++ optEqFrag (S "--pad=") p.pad_size
      ++ optSpaceFrag (S "-q") p.compression
      ++ [p.endianness]
      ++ (if p.no_cleanmarkers then [S "-n"] else [])
      ++ optSpaceFrag (S "-c") p.cleanmarker_size
      ++ (if p.faketime then [S "-f"] else [])
      ++ squashFrag p.squash
      ++ optEqFrag (S "--compression-mode=") p.compr_mode
      ++ (if p.with_xattr then [S "--with-xattr"] else [])
      ++ (if p.with_selinux then [S "--with-selinux"] else [])
      ++ (if p.with_posix_acl then [S "--with-posix-acl"] else [])
      ++ devFrag ex p.devtable
      ++ optEqFrag (S "--disable-compressor=") p.disabled_compressor
      ++ optEqFrag (S "--enable-compressor=") p.enable_compressor =
      [S "-e" ++ (' ' :: p.erase_size), S "-s" ++ (' ' :: p.page_size)]
      ++ (optEqFrag (S "--pad=") p.pad_size
      ++ (optSpaceFrag (S "-q") p.compression
      ++ ([p.endianness]
      ++ ((if p.no_cleanmarkers then [S "-n"] else [])
      ++ (optSpaceFrag (S "-c") p.cleanmarker_size
      ++ ((if p.faketime then [S "-f"] else [])
      ++ (squashFrag p.squash
      ++ (optEqFrag (S "--compression-mode=") p.compr_mode
      ++ ((if p.with_xattr then [S "--with-xattr"] else [])
      ++ ((if p.with_selinux then [S "--with-selinux"] else [])
      ++ ((if p.with_posix_acl then [S "--with-posix-acl"] else [])
      ++ (devFrag ex p.devtable
      ++ (optEqFrag (S "--disable-compressor=") p.disabled_compressor
      ++ optEqFrag (S "--enable-compressor=") p.enable_compressor))))))))))))) from by
    simp only [List.append_assoc]]
  simp only [List.flatMap_append]
  repeat rw [canonToks_append]
  rw [canon_loop_eSeg p.erase_size p.page_size he hs,
    canon_loop_padFrag p.pad_size hpad,
    canon_loop_optSpaceFrag (S "-q") (by decide) (by decide) (by decide) p.compression hq,
    canon_loop_endSeg p.endianness hend,
    canon_loop_ifFlag _ (S "-n") (by decide),
    canon_loop_optSpaceFrag (S "-c") (by decide) (by decide) (by decide) p.cleanmarker_size hcm,
    canon_loop_ifFlag _ (S "-f") (by decide),
    canon_loop_squash p.squash,
    canon_loop_cmodeFrag p.compr_mode hmode,
    canon_loop_ifFlag _ (S "--with-xattr") (by decide),
    canon_loop_ifFlag _ (S "--with-selinux") (by decide),
    canon_loop_ifFlag _ (S "--with-posix-acl") (by decide),
    canon_loop_devFrag ex p.devtable hdev,
    canon_loop_emptyOpt _ _ hdc,
    canon_loop_emptyOpt _ _ hec]
  unfold restSegs
  simp only [List.append_assoc, List.append_nil, List.nil_append]

/-- Claim C5 as amended: for the same logical parameter set, with the
disable-compressor and enable-compressor options absent (the named rendering
path accepts but never renders them) and with well-formed option values
(non-empty, whitespace-free, not spelled like the long pad or
compression-mode options), the discrete-named-parameter path and the
search loop's assemble-then-split option-string path produce equivalent
invocations: the same canonicalized argument multiset, where
canonicalization identifies the long and short spellings of the pad and
compression-mode options (the two paths deliberately use different
spellings and order the pad and compression options differently). -/
theorem C5_rendering_paths_equiv (ex : Str → Bool) (src out : Str) (p : Params)
    (he : cleanVal p.erase_size) (hs : cleanVal p.page_size)
    (hpad : optClean p.pad_size) (hq : optClean p.compression)
    (hend : p.endianness = [] ∨ cleanVal p.endianness)
    (hcm : optClean p.cleanmarker_size) (hmode : optClean p.compr_mode)
    (hdev : optClean p.devtable)
    (hdc : p.disabled_compressor = none ∨ p.disabled_compressor = some [])
    (hec : p.enable_compressor = none ∨ p.enable_compressor = some []) :
    invocEquiv
      (build_jffs2_cmd ex src out p.erase_size p.page_size p.pad_size p.compression
        p.endianness p.no_cleanmarkers p.cleanmarker_size p.faketime
        (decide (p.squash = some (S "perms"))) (decide (p.squash = some (S "uids")))
        (decide (p.squash = some (S "all"))) p.compr_mode p.with_xattr p.with_selinux
        p.with_posix_acl p.devtable p.disabled_compressor p.enable_compressor)
      (build_jffs2_from_params_cmd src out (scanParamStr ex p)) := by
  unfold invocEquiv
  rw [canonNamed_eq ex src out p he hs hpad hq hend hcm hmode hdev,
    canonLoop_eq ex src out p he hs hpad hq hend hcm hmode hdev hdc hec]
  apply List.Perm.append_left
  apply List.Perm.append_left
  exact List.perm_append_comm_assoc _ _ _

/-- The claim C5 as stated is false on the code: for the logical parameter
set pBad, which sets enable_compressor to "lzo", the search loop's option
string carries the enable-compressor option while build_jffs2 silently drops
it, so the two rendered invocations are not equivalent even up to option
order and alias spelling. -/
theorem C5_counterexample :
    ¬ invocEquiv
      (build_jffs2_cmd exW (S "src") (S "out") pBad.erase_size pBad.page_size
        pBad.pad_size pBad.compression pBad.endianness pBad.no_cleanmarkers
        pBad.cleanmarker_size pBad.faketime (decide (pBad.squash = some (S "perms")))
        (decide (pBad.squash = some (S "uids"))) (decide (pBad.squash = some (S "all")))
        pBad.compr_mode pBad.with_xattr pBad.with_selinux pBad.with_posix_acl
        pBad.devtable pBad.disabled_compressor pBad.enable_compressor)
      (build_jffs2_from_params_cmd (S "src") (S "out") (scanParamStr exW pBad)) := by
  unfold invocEquiv
  decide

/-- Witness for C5 at the shipped parameter tuple pW: both rendering paths
agree up to canonicalization. -/
theorem C5_rendering_paths_equiv_witness :
    invocEquiv
      (build_jffs2_cmd exW (S "src") (S "out") pW.erase_size pW.page_size
        pW.pad_size pW.compression pW.endianness pW.no_cleanmarkers
        pW.cleanmarker_size pW.faketime (decide (pW.squash = some (S "perms")))
        (decide (pW.squash = some (S "uids"))) (decide (pW.squash = some (S "all")))
        pW.compr_mode pW.with_xattr pW.with_selinux pW.with_posix_acl
        pW.devtable pW.disabled_compressor pW.enable_compressor)
      (build_jffs2_from_params_cmd (S "src") (S "out") (scanParamStr exW pW)) :=
  C5_rendering_paths_equiv exW (S "src") (S "out") pW (by decide) (by decide)
    (by decide) (by decide) (by decide) (by decide) (by decide) (by decide)
    (by decide) (by decide)
